import Mathlib

set_option autoImplicit false

/-!
Shallow embedding of the kirill-scherba/aws repository, centred on the
Cognito lookup cache (`Cache` in aws_cognito_cache_test.go's companion
source), the Cognito lookup provider (`awsCognito.Get` in aws.go), and the
S3 `DeleteFolder` helper (aws_s3.go).

Go maps `map[string]V` are embedded as association lists
`List (String × V)`; map indexing, assignment and `delete` become
`assocLookup`, `assocSet` and `assocErase`.  Go errors are embedded as
values carrying their message string (the repository compares error
conditions by textual message: `err.Error() == ErrCognitoUserNotFound.Error()`).
A nil-able Go pointer or error becomes an `Option`.
-/

/-- A Cognito user record (`types.UserType`); only the fields the claims
need are kept: the stable `sub` identifier and a distinguishing payload. -/
structure UserType where
  sub : String
  username : String
  deriving DecidableEq

/-- A Go `error` value, identified by its message (`Error()` string), the
comparison the repository actually performs. -/
structure GoError where
  msg : String
  deriving DecidableEq

/-- Modelled from the spec: the distinguished `UserNotFound` sentinel
(`ErrCognitoUserNotFound`), whose defining declaration is not among the
provided source files (only its uses are).  The spec describes it as the
distinguished, comparable not-found condition, distinguished from all other
errors by textual message, and `awsCognito.Get` produces the not-found
condition as `errors.New("not found")`. -/
def ErrCognitoUserNotFound : GoError := ⟨"not found"⟩

/-- One memoized outcome (`cacheData`): the embedded `*UserType` pointer and
the stored `err`. -/
structure cacheData where
  user : Option UserType
  err : Option GoError
  deriving DecidableEq

/-- Go map indexing `m[key]` with its `ok` flag: first binding wins. -/
def assocLookup {α : Type} : List (String × α) → String → Option α
  | [], _ => none
  | (k, v) :: rest, key => if k = key then some v else assocLookup rest key

/-- Go map assignment `m[key] = v`: replace the binding if present,
append it otherwise. -/
def assocSet {α : Type} : List (String × α) → String → α → List (String × α)
  | [], key, v => [(key, v)]
  | (k, w) :: rest, key, v =>
    if k = key then (key, v) :: rest else (k, w) :: assocSet rest key v

/-- Go `delete(m, key)`. -/
def assocErase {α : Type} : List (String × α) → String → List (String × α)
  | [], _ => []
  | (k, v) :: rest, key =>
    if k = key then assocErase rest key else (k, v) :: assocErase rest key

theorem assocLookup_set_same {α : Type} (l : List (String × α)) (k : String) (v : α) :
    assocLookup (assocSet l k v) k = some v := by
  induction l with
  | nil => simp [assocSet, assocLookup]
  | cons kv rest ih =>
    obtain ⟨k0, w⟩ := kv
    by_cases h : k0 = k <;> simp [assocSet, assocLookup, h, ih]

theorem assocLookup_set_ne {α : Type} (l : List (String × α)) (k k' : String) (v : α)
    (h : k' ≠ k) : assocLookup (assocSet l k v) k' = assocLookup l k' := by
  induction l with
  | nil => simp [assocSet, assocLookup, Ne.symm h]
  | cons kv rest ih =>
    obtain ⟨k0, w⟩ := kv
    by_cases h0 : k0 = k
    · subst h0
      simp [assocSet, assocLookup, Ne.symm h]
    · by_cases h1 : k0 = k' <;> simp [assocSet, assocLookup, h0, h1, h, ih]

theorem assocLookup_erase_same {α : Type} (l : List (String × α)) (k : String) :
    assocLookup (assocErase l k) k = none := by
  induction l with
  | nil => simp [assocErase, assocLookup]
  | cons kv rest ih =>
    obtain ⟨k0, w⟩ := kv
    by_cases h : k0 = k <;> simp [assocErase, assocLookup, h, ih]

theorem assocLookup_erase_ne {α : Type} (l : List (String × α)) (k k' : String)
    (h : k' ≠ k) : assocLookup (assocErase l k) k' = assocLookup l k' := by
  induction l with
  | nil => simp [assocErase, assocLookup]
  | cons kv rest ih =>
    obtain ⟨k0, w⟩ := kv
    by_cases h0 : k0 = k
    · subst h0
      simp [assocErase, assocLookup, Ne.symm h, ih]
    · by_cases h1 : k0 = k' <;> simp [assocErase, assocLookup, h0, h1, h, ih]

theorem assocErase_of_lookup_none {α : Type} (l : List (String × α)) (k : String)
    (h : assocLookup l k = none) : assocErase l k = l := by
  induction l with
  | nil => simp [assocErase]
  | cons kv rest ih =>
    obtain ⟨k0, w⟩ := kv
    by_cases h0 : k0 = k
    · simp [assocLookup, h0] at h
    · simp [assocLookup, h0] at h
      simp [assocErase, h0, ih h]

theorem assocSet_length_of_lookup_none {α : Type} (l : List (String × α))
    (k : String) (v : α) (h : assocLookup l k = none) :
    (assocSet l k v).length = l.length + 1 := by
  induction l with
  | nil => simp [assocSet]
  | cons kv rest ih =>
    obtain ⟨k0, w⟩ := kv
    by_cases h0 : k0 = k
    · simp [assocLookup, h0] at h
    · simp [assocLookup, h0] at h
      simp [assocSet, h0, ih h]

/-- The inner level of the cache: `map[string]cacheData` keyed by sub. -/
abbrev InnerCache := List (String × cacheData)

/-- The two-level cache store `map[string]map[string]cacheData` keyed by
user-pool id, then by sub. -/
abbrev CacheStore := List (String × InnerCache)

/-- The double map read `c.cache[userPoolId][sub]` with its `ok` flag:
a missing outer binding yields a nil inner map, whose reads all miss. -/
def lookup2 (s : CacheStore) (userPoolId sub : String) : Option cacheData :=
  match assocLookup s userPoolId with
  | none => none
  | some inner => assocLookup inner sub

/-- `Cache.add`: create the inner map when absent, then store the entry. -/
def Cache.add (s : CacheStore) (userPoolId sub : String)
    (user : Option UserType) (err : Option GoError) : CacheStore :=
  match assocLookup s userPoolId with
  | none => assocSet s userPoolId [(sub, ⟨user, err⟩)]
  | some inner => assocSet s userPoolId (assocSet inner sub ⟨user, err⟩)

/-- The observable outcome of one `Cache.Get` call: the returned pair, the
cache store after the call, and whether the upstream provider was invoked. -/
structure GetResult where
  user : Option UserType
  err : Option GoError
  state : CacheStore
  calledProvider : Bool
  deriving DecidableEq

/-- `Cache.Get`: serve from the cache on a hit; on a miss invoke the
provider (`c.coginto.Get`), memoize a success or a not-found outcome
(recognised by message equality with `ErrCognitoUserNotFound`), and leave
any other provider error uncached. -/
def Cache.Get (provider : String → String → Option UserType × Option GoError)
    (s : CacheStore) (userPoolId sub : String) : GetResult :=
  match lookup2 s userPoolId sub with
  | some userCache => ⟨userCache.user, userCache.err, s, false⟩
  | none =>
    match provider userPoolId sub with
    | (user, some e) =>
      if e.msg = ErrCognitoUserNotFound.msg then
        ⟨user, some e, Cache.add s userPoolId sub user (some e), true⟩
      else
        ⟨user, some e, s, true⟩
    | (user, none) => ⟨user, none, Cache.add s userPoolId sub user none, true⟩

/-- `Cache.Len`: `len(c.cache[userPoolId])`; the nil map has length 0. -/
def Cache.Len (s : CacheStore) (userPoolId : String) : Nat :=
  match assocLookup s userPoolId with
  | none => 0
  | some inner => inner.length

/-- `Cache.Clear`: `delete(c.cache, userPoolId)`. -/
def Cache.Clear (s : CacheStore) (userPoolId : String) : CacheStore :=
  assocErase s userPoolId

theorem Cache.Get_hit (provider : String → String → Option UserType × Option GoError)
    (s : CacheStore) (d u : String) (cd : cacheData) (h : lookup2 s d u = some cd) :
    Cache.Get provider s d u = ⟨cd.user, cd.err, s, false⟩ := by
  simp [Cache.Get, h]

theorem lookup2_add_same (s : CacheStore) (d u : String)
    (pu : Option UserType) (pe : Option GoError) :
    lookup2 (Cache.add s d u pu pe) d u = some ⟨pu, pe⟩ := by
  unfold Cache.add lookup2
  cases h : assocLookup s d with
  | none => simp [assocLookup_set_same, assocLookup]
  | some inner => simp [assocLookup_set_same]

theorem lookup2_add_ne (s : CacheStore) (d u d' u' : String)
    (pu : Option UserType) (pe : Option GoError) (h : d' ≠ d ∨ u' ≠ u) :
    lookup2 (Cache.add s d u pu pe) d' u' = lookup2 s d' u' := by
  unfold Cache.add lookup2
  by_cases hd : d' = d
  · subst hd
    have hu : u' ≠ u := by
      rcases h with h | h
      · exact absurd rfl h
      · exact h
    cases h0 : assocLookup s d' with
    | none => simp [assocLookup_set_same, assocLookup, Ne.symm hu]
    | some inner => simp [assocLookup_set_same, assocLookup_set_ne _ _ _ _ hu]
  · cases h0 : assocLookup s d with
    | none => simp [assocLookup_set_ne _ _ _ _ hd, h0]
    | some inner => simp [assocLookup_set_ne _ _ _ _ hd, h0]

theorem lookup2_clear_same (s : CacheStore) (d u : String) :
    lookup2 (Cache.Clear s d) d u = none := by
  simp [Cache.Clear, lookup2, assocLookup_erase_same]

theorem lookup2_clear_ne (s : CacheStore) (d d' u : String) (h : d' ≠ d) :
    lookup2 (Cache.Clear s d) d' u = lookup2 s d' u := by
  simp [Cache.Clear, lookup2, assocLookup_erase_ne _ _ _ h]

theorem Cache.Len_clear_same (s : CacheStore) (d : String) :
    Cache.Len (Cache.Clear s d) d = 0 := by
  simp [Cache.Clear, Cache.Len, assocLookup_erase_same]

theorem Cache.Len_clear_ne (s : CacheStore) (d d' : String) (h : d' ≠ d) :
    Cache.Len (Cache.Clear s d) d' = Cache.Len s d' := by
  simp [Cache.Clear, Cache.Len, assocLookup_erase_ne _ _ _ h]

theorem Cache.Len_add_of_miss (s : CacheStore) (d u : String)
    (pu : Option UserType) (pe : Option GoError) (h : lookup2 s d u = none) :
    Cache.Len (Cache.add s d u pu pe) d = Cache.Len s d + 1 := by
  unfold Cache.add Cache.Len
  cases h0 : assocLookup s d with
  | none => simp [assocLookup_set_same]
  | some inner =>
    have hu : assocLookup inner u = none := by
      simpa [lookup2, h0] using h
    simp [assocLookup_set_same, assocSet_length_of_lookup_none _ _ _ hu]

/-- One public cache operation, for stating frame and invariance
properties over arbitrary call sequences. -/
inductive CacheOp where
  | get (userPoolId sub : String)
  | len (userPoolId : String)
  | clear (userPoolId : String)
  deriving DecidableEq

/-- The cache-store effect of one operation (`Len` is read-only). -/
def CacheOp.apply (provider : String → String → Option UserType × Option GoError)
    (s : CacheStore) : CacheOp → CacheStore
  | CacheOp.get d u => (Cache.Get provider s d u).state
  | CacheOp.len _ => s
  | CacheOp.clear d => Cache.Clear s d

/-- Run a sequence of cache operations left to right. -/
def applyOps (provider : String → String → Option UserType × Option GoError)
    (ops : List CacheOp) (s : CacheStore) : CacheStore :=
  ops.foldl (fun st op => CacheOp.apply provider st op) s

theorem lookup2_apply_preserve
    (provider : String → String → Option UserType × Option GoError)
    (s : CacheStore) (op : CacheOp) (d u : String) (cd : cacheData)
    (h : lookup2 s d u = some cd) :
    lookup2 (CacheOp.apply provider s op) d u = some cd ∨ op = CacheOp.clear d := by
  cases op with
  | get d2 u2 =>
    left
    cases hlu : lookup2 s d2 u2 with
    | some cd2 => simp [CacheOp.apply, Cache.Get, hlu, h]
    | none =>
      have hne : d ≠ d2 ∨ u ≠ u2 := by
        by_contra hc
        push_neg at hc
        obtain ⟨e1, e2⟩ := hc
        rw [← e1, ← e2, h] at hlu
        exact Option.noConfusion hlu
      simp only [CacheOp.apply, Cache.Get, hlu]
      rcases hp : provider d2 u2 with ⟨pu, pe⟩
      cases pe with
      | none => simp [lookup2_add_ne s d2 u2 d u pu none hne, h]
      | some e =>
        by_cases hm : e.msg = ErrCognitoUserNotFound.msg
        · simp [hm, lookup2_add_ne s d2 u2 d u pu (some e) hne, h]
        · simp [hm, h]
  | len d2 =>
    left
    exact h
  | clear d2 =>
    by_cases hd : d2 = d
    · right
      rw [hd]
    · left
      have := lookup2_clear_ne s d2 d u (Ne.symm hd)
      simpa [CacheOp.apply, this] using h

theorem lookup2_applyOps_preserve
    (provider : String → String → Option UserType × Option GoError)
    (ops : List CacheOp) :
    ∀ (s : CacheStore) (d u : String) (cd : cacheData),
      lookup2 s d u = some cd →
      lookup2 (applyOps provider ops s) d u = some cd ∨ CacheOp.clear d ∈ ops := by
  induction ops with
  | nil =>
    intro s d u cd h
    left
    exact h
  | cons op rest ih =>
    intro s d u cd h
    rcases lookup2_apply_preserve provider s op d u cd h with h1 | h1
    · rcases ih (CacheOp.apply provider s op) d u cd h1 with h2 | h2
      · left
        exact h2
      · right
        exact List.mem_cons_of_mem _ h2
    · right
      rw [h1]
      exact List.mem_cons_self _ _

theorem lookup2_applyOps_no_clear
    (provider : String → String → Option UserType × Option GoError)
    (ops : List CacheOp) (s : CacheStore) (d u : String) (cd : cacheData)
    (h : lookup2 s d u = some cd) (hnc : CacheOp.clear d ∉ ops) :
    lookup2 (applyOps provider ops s) d u = some cd :=
  (lookup2_applyOps_preserve provider ops s d u cd h).resolve_right hnc

/-- C1: Negative memoization: on a miss for a key whose provider lookup
reports the not-found condition, `Cache.Get` invokes the provider, stores
a negative entry for the key and returns the not-found error; every
subsequent `Cache.Get` for the same key — after any further activity that
contains no `Clear` of this directory instance — returns the same
not-found error without invoking the provider. -/
theorem cache_negative_memoization
    (provider : String → String → Option UserType × Option GoError)
    (s : CacheStore) (d u : String) (pu : Option UserType) (e : GoError)
    (hmiss : lookup2 s d u = none)
    (hprov : provider d u = (pu, some e))
    (hnf : e.msg = ErrCognitoUserNotFound.msg) :
    Cache.Get provider s d u = ⟨pu, some e, Cache.add s d u pu (some e), true⟩ ∧
    lookup2 (Cache.add s d u pu (some e)) d u = some ⟨pu, some e⟩ ∧
    ∀ ops : List CacheOp, CacheOp.clear d ∉ ops →
      Cache.Get provider (applyOps provider ops (Cache.add s d u pu (some e))) d u =
        ⟨pu, some e, applyOps provider ops (Cache.add s d u pu (some e)), false⟩ := by
  refine ⟨?_, lookup2_add_same s d u pu (some e), ?_⟩
  · simp [Cache.Get, hmiss, hprov, hnf]
  · intro ops hnc
    have hpres := lookup2_applyOps_no_clear provider ops
      (Cache.add s d u pu (some e)) d u ⟨pu, some e⟩
      (lookup2_add_same s d u pu (some e)) hnc
    exact Cache.Get_hit provider _ d u ⟨pu, some e⟩ hpres

/-- Witness for C1: a stub provider that knows no user, a fresh cache. -/
theorem cache_negative_memoization_witness :
    Cache.Get (fun _ _ => (none, some ⟨"not found"⟩)) [] "pool-1" "missing-sub" =
      ⟨none, some ⟨"not found"⟩,
        Cache.add [] "pool-1" "missing-sub" none (some ⟨"not found"⟩), true⟩ :=
  (cache_negative_memoization (fun _ _ => (none, some ⟨"not found"⟩)) []
    "pool-1" "missing-sub" none ⟨"not found"⟩ rfl rfl rfl).1

/-- C2: Positive memoization: on a miss for a key the provider knows,
`Cache.Get` invokes the provider, stores the record as a positive entry
and returns it; every subsequent `Cache.Get` for the same key — after any
further activity that contains no `Clear` of this directory instance —
returns the same record without invoking the provider. -/
theorem cache_positive_memoization
    (provider : String → String → Option UserType × Option GoError)
    (s : CacheStore) (d u : String) (r : UserType)
    (hmiss : lookup2 s d u = none)
    (hprov : provider d u = (some r, none)) :
    Cache.Get provider s d u = ⟨some r, none, Cache.add s d u (some r) none, true⟩ ∧
    lookup2 (Cache.add s d u (some r) none) d u = some ⟨some r, none⟩ ∧
    ∀ ops : List CacheOp, CacheOp.clear d ∉ ops →
      Cache.Get provider (applyOps provider ops (Cache.add s d u (some r) none)) d u =
        ⟨some r, none, applyOps provider ops (Cache.add s d u (some r) none), false⟩ := by
  refine ⟨?_, lookup2_add_same s d u (some r) none, ?_⟩
  · simp [Cache.Get, hmiss, hprov]
  · intro ops hnc
    have hpres := lookup2_applyOps_no_clear provider ops
      (Cache.add s d u (some r) none) d u ⟨some r, none⟩
      (lookup2_add_same s d u (some r) none) hnc
    exact Cache.Get_hit provider _ d u ⟨some r, none⟩ hpres

/-- Witness for C2: a stub provider that returns one record. -/
theorem cache_positive_memoization_witness :
    Cache.Get (fun _ _ => (some ⟨"sub-1", "alice"⟩, none)) [] "pool-1" "sub-1" =
      ⟨some ⟨"sub-1", "alice"⟩, none,
        Cache.add [] "pool-1" "sub-1" (some ⟨"sub-1", "alice"⟩) none, true⟩ :=
  (cache_positive_memoization (fun _ _ => (some ⟨"sub-1", "alice"⟩, none)) []
    "pool-1" "sub-1" ⟨"sub-1", "alice"⟩ rfl rfl).1

/-- C3: Transient-error atomicity: when the provider fails with anything
other than the not-found condition, `Cache.Get` returns that error
unchanged, leaves the cache store exactly as it was, and a repeated
`Cache.Get` for the same key invokes the provider again. -/
theorem cache_transient_error_atomicity
    (provider : String → String → Option UserType × Option GoError)
    (s : CacheStore) (d u : String) (pu : Option UserType) (e : GoError)
    (hmiss : lookup2 s d u = none)
    (hprov : provider d u = (pu, some e))
    (hne : e.msg ≠ ErrCognitoUserNotFound.msg) :
    Cache.Get provider s d u = ⟨pu, some e, s, true⟩ ∧
    (Cache.Get provider (Cache.Get provider s d u).state d u).calledProvider = true := by
  have h1 : Cache.Get provider s d u = ⟨pu, some e, s, true⟩ := by
    simp [Cache.Get, hmiss, hprov, hne]
  refine ⟨h1, ?_⟩
  rw [h1]
  simp [Cache.Get, hmiss, hprov, hne]

/-- Witness for C3: a stub provider that always fails with a throttling
error. -/
theorem cache_transient_error_atomicity_witness :
    Cache.Get (fun _ _ => (none, some ⟨"throttled"⟩)) [] "pool-1" "sub-1" =
      ⟨none, some ⟨"throttled"⟩, [], true⟩ :=
  (cache_transient_error_atomicity (fun _ _ => (none, some ⟨"throttled"⟩)) []
    "pool-1" "sub-1" none ⟨"throttled"⟩ rfl rfl (by decide)).1

/-- C4: Clear semantics and frame: `Clear(d)` removes every entry
(positive and negative) of directory instance `d`, leaves every other
directory instance untouched (both its entries and its `Len`), and the
next `Cache.Get` for any key of `d` is a miss that invokes the provider
again. -/
theorem cache_clear_frame
    (provider : String → String → Option UserType × Option GoError)
    (s : CacheStore) (d d' u : String) (hne : d' ≠ d) :
    lookup2 (Cache.Clear s d) d u = none ∧
    Cache.Len (Cache.Clear s d) d = 0 ∧
    lookup2 (Cache.Clear s d) d' u = lookup2 s d' u ∧
    Cache.Len (Cache.Clear s d) d' = Cache.Len s d' ∧
    (Cache.Get provider (Cache.Clear s d) d u).calledProvider = true := by
  refine ⟨lookup2_clear_same s d u, Cache.Len_clear_same s d,
    lookup2_clear_ne s d d' u hne, Cache.Len_clear_ne s d d' hne, ?_⟩
  have h0 : lookup2 (Cache.Clear s d) d u = none := lookup2_clear_same s d u
  rcases hp : provider d u with ⟨pu, pe⟩
  cases pe with
  | none => simp [Cache.Get, h0, hp]
  | some e =>
    by_cases hm : e.msg = ErrCognitoUserNotFound.msg <;>
      simp [Cache.Get, h0, hp, hm]

/-- Witness for C4: clearing "pool-1" empties it while "pool-2" keeps its
entry. -/
theorem cache_clear_frame_witness :
    lookup2 (Cache.Clear
      [("pool-1", [("sub-1", ⟨none, some ⟨"not found"⟩⟩)]),
       ("pool-2", [("sub-2", ⟨some ⟨"sub-2", "bob"⟩, none⟩)])] "pool-1")
      "pool-1" "sub-1" = none :=
  (cache_clear_frame (fun _ _ => (none, some ⟨"not found"⟩))
    [("pool-1", [("sub-1", ⟨none, some ⟨"not found"⟩⟩)]),
     ("pool-2", [("sub-2", ⟨some ⟨"sub-2", "bob"⟩, none⟩)])]
    "pool-1" "pool-2" "sub-1" (by decide)).1

/-- C5: `Len` counts positive and negative entries: adding an entry for a
missing key (in particular a negative one) raises `Len` of that instance
by one, and in the spec scenario a fresh cache after a not-found
`Get("pool-1", "missing-sub")` has `Len("pool-1") = 1`, a second `Get`
serves the same error from the cache, and after `Clear("pool-1")` the
length is `0`. -/
theorem cache_len_counts_negative_entries
    (provider : String → String → Option UserType × Option GoError)
    (pu : Option UserType) (e : GoError)
    (hprov : provider "pool-1" "missing-sub" = (pu, some e))
    (hnf : e.msg = ErrCognitoUserNotFound.msg) :
    (Cache.Get provider [] "pool-1" "missing-sub").err = some e ∧
    Cache.Len (Cache.Get provider [] "pool-1" "missing-sub").state "pool-1" = 1 ∧
    Cache.Get provider (Cache.Get provider [] "pool-1" "missing-sub").state
        "pool-1" "missing-sub" =
      ⟨pu, some e, (Cache.Get provider [] "pool-1" "missing-sub").state, false⟩ ∧
    Cache.Len (Cache.Clear (Cache.Get provider [] "pool-1" "missing-sub").state
        "pool-1") "pool-1" = 0 ∧
    ∀ (s : CacheStore) (d u : String) (pu' : Option UserType) (e' : Option GoError),
      lookup2 s d u = none →
      Cache.Len (Cache.add s d u pu' e') d = Cache.Len s d + 1 := by
  have hmiss : lookup2 ([] : CacheStore) "pool-1" "missing-sub" = none := rfl
  have h1 : Cache.Get provider [] "pool-1" "missing-sub" =
      ⟨pu, some e, Cache.add [] "pool-1" "missing-sub" pu (some e), true⟩ := by
    simp [Cache.Get, hmiss, hprov, hnf]
  refine ⟨?_, ?_, ?_, ?_, ?_⟩
  · rw [h1]
  · rw [h1]
    have h2 := Cache.Len_add_of_miss [] "pool-1" "missing-sub" pu (some e) hmiss
    rw [h2]
    rfl
  · rw [h1]
    exact Cache.Get_hit provider _ _ _ ⟨pu, some e⟩
      (lookup2_add_same [] "pool-1" "missing-sub" pu (some e))
  · rw [h1]
    exact Cache.Len_clear_same _ "pool-1"
  · intro s d u pu' e' hm
    exact Cache.Len_add_of_miss s d u pu' e' hm

/-- Witness for C5: the stub provider that knows no user. -/
theorem cache_len_counts_negative_entries_witness :
    Cache.Len (Cache.Get (fun _ _ => (none, some ⟨"not found"⟩)) []
      "pool-1" "missing-sub").state "pool-1" = 1 :=
  (cache_len_counts_negative_entries (fun _ _ => (none, some ⟨"not found"⟩))
    none ⟨"not found"⟩ rfl rfl).2.1

/-- C6: Entry immutability: once an entry is cached for a key, any
sequence of `Get`, `Len` and `Clear` operations either leaves that exact
entry in place or contains a `Clear` of its directory instance (the only
operation that can make the entry change, by first removing it). -/
theorem cache_entry_immutability
    (provider : String → String → Option UserType × Option GoError)
    (s : CacheStore) (ops : List CacheOp) (d u : String) (cd : cacheData)
    (h : lookup2 s d u = some cd) :
    lookup2 (applyOps provider ops s) d u = some cd ∨ CacheOp.clear d ∈ ops :=
  lookup2_applyOps_preserve provider ops s d u cd h

/-- Witness for C6: a concrete state and operation sequence with no
`Clear` of the entry's pool. -/
theorem cache_entry_immutability_witness :
    lookup2 (applyOps (fun _ _ => (none, some ⟨"not found"⟩))
        [CacheOp.get "p" "v", CacheOp.len "p", CacheOp.clear "q"]
        [("p", [("u", ⟨none, some ⟨"not found"⟩⟩)])]) "p" "u" =
      some ⟨none, some ⟨"not found"⟩⟩ ∨
    CacheOp.clear "p" ∈ [CacheOp.get "p" "v", CacheOp.len "p", CacheOp.clear "q"] :=
  cache_entry_immutability (fun _ _ => (none, some ⟨"not found"⟩))
    [("p", [("u", ⟨none, some ⟨"not found"⟩⟩)])]
    [CacheOp.get "p" "v", CacheOp.len "p", CacheOp.clear "q"]
    "p" "u" ⟨none, some ⟨"not found"⟩⟩ (by decide)

/-- C9: Unknown-instance totality: for a directory instance with no
sub-mapping in the two-level map, `Len` returns 0, `Clear` leaves the
store unchanged, and the cache-read step of `Get` reports a miss; all
three are total functions. -/
theorem cache_unknown_instance_total
    (s : CacheStore) (d u : String) (h : assocLookup s d = none) :
    Cache.Len s d = 0 ∧ Cache.Clear s d = s ∧ lookup2 s d u = none := by
  refine ⟨?_, ?_, ?_⟩
  · simp [Cache.Len, h]
  · simpa [Cache.Clear] using assocErase_of_lookup_none s d h
  · simp [lookup2, h]

/-- Witness for C9: an instance absent from a non-empty store. -/
theorem cache_unknown_instance_total_witness :
    Cache.Len [("pool-1", [("sub-1", (⟨none, none⟩ : cacheData))])] "pool-9" = 0 :=
  (cache_unknown_instance_total
    [("pool-1", [("sub-1", (⟨none, none⟩ : cacheData))])]
    "pool-9" "sub-1" (by decide)).1

/-- Character-list version of "starts with". -/
def charsStart : List Char → List Char → Bool
  | _, [] => true
  | [], _ :: _ => false
  | c :: cs, d :: ds => c == d && charsStart cs ds

/-- `strStarts s q` is true when `s` starts with `q`. -/
def strStarts (s q : String) : Bool :=
  charsStart s.data q.data

/-- The Cognito `ListUsers` backend applied to the filter string
`sub^='q'` that `awsCognito.Get` builds: per the `^=` ("starts with")
semantics documented in the source's `List` comment, it keeps exactly the
users whose `sub` attribute has `q` as a leading substring. -/
def listUsersSubFilter (pool : List UserType) (q : String) : List UserType :=
  pool.filter (fun usr => strStarts usr.sub q)

/-- `awsCognito.Get`: call `ListUsers` with the filter `sub^='sub'`;
propagate a transport error; answer `errors.New("not found")` on an empty
result; otherwise return the first listed user. -/
def awsCognito.Get (listUsers : String → String → Except GoError (List UserType))
    (userPoolId sub : String) : Option UserType × Option GoError :=
  match listUsers userPoolId ("sub^='" ++ sub ++ "'") with
  | Except.error e => (none, some e)
  | Except.ok users =>
    match users with
    | [] => (none, some ⟨"not found"⟩)
    | usr :: _ => (some usr, none)

/-- C7 counterexample: with a healthy transport over a pool holding the
single user of sub "abc", `awsCognito.Get` queried with "ab" returns that
user although no stored sub equals "ab": the constructed filter
`sub^='…'` is a prefix match, not an exact match. -/
theorem cognito_get_exact_match_counterexample :
    awsCognito.Get
        (fun _ _ => Except.ok (listUsersSubFilter [⟨"abc", "alice"⟩] "ab"))
        "pool-1" "ab" =
      (some ⟨"abc", "alice"⟩, none) ∧
    (⟨"abc", "alice"⟩ : UserType).sub ≠ "ab" := by
  constructor
  · rfl
  · decide

/-- C7 (amended): `awsCognito.Get` propagates transport errors unchanged;
against a backend answering the constructed `sub^='q'` filter with the
prefix-filtered pool, it fails with the not-found condition exactly when
no user's sub starts with `q`, and otherwise returns the first user whose
sub starts with `q`. -/
theorem cognito_get_sub_filter_contract
    (listUsers : String → String → Except GoError (List UserType))
    (poolId q : String) (pool : List UserType) :
    (∀ e : GoError, listUsers poolId ("sub^='" ++ q ++ "'") = Except.error e →
      awsCognito.Get listUsers poolId q = (none, some e)) ∧
    (listUsers poolId ("sub^='" ++ q ++ "'") = Except.ok (listUsersSubFilter pool q) →
      ((∀ usr ∈ pool, strStarts usr.sub q = false) →
        awsCognito.Get listUsers poolId q = (none, some ⟨"not found"⟩)) ∧
      (∀ usr rest, listUsersSubFilter pool q = usr :: rest →
        awsCognito.Get listUsers poolId q = (some usr, none) ∧
        usr ∈ pool ∧ strStarts usr.sub q = true)) := by
  refine ⟨?_, ?_⟩
  · intro e he
    simp [awsCognito.Get, he]
  · intro hok
    refine ⟨?_, ?_⟩
    · intro hall
      have hnil : listUsersSubFilter pool q = [] := by
        apply List.filter_eq_nil_iff.mpr
        intro usr husr
        simp [hall usr husr]
      rw [hnil] at hok
      simp [awsCognito.Get, hok]
    · intro usr rest hcons
      have hmem : usr ∈ listUsersSubFilter pool q := by
        rw [hcons]
        exact List.mem_cons_self _ _
      have hsplit := List.mem_filter.mp hmem
      rw [hcons] at hok
      exact ⟨by simp [awsCognito.Get, hok], hsplit.1, hsplit.2⟩

/-- Witness for C7 (amended): an empty pool yields the not-found error. -/
theorem cognito_get_sub_filter_contract_witness :
    awsCognito.Get (fun _ _ => Except.ok (listUsersSubFilter [] "zz"))
      "pool-1" "zz" = (none, some ⟨"not found"⟩) :=
  ((cognito_get_sub_filter_contract
    (fun _ _ => Except.ok (listUsersSubFilter [] "zz"))
    "pool-1" "zz" []).2 rfl).1 (by decide)

/-- One S3 request issued by `DeleteFolder`, for stating which calls are
performed and in which order. -/
inductive S3Op where
  | listObjectsOp (bucket pfx : String)
  | deleteOp (bucket key : String)
  deriving DecidableEq

/-- `strings.TrimRight(s, "/")`: drop every trailing slash. -/
def trimRightSlashes (s : String) : String :=
  ⟨(s.data.reverse.dropWhile (fun c => c == '/')).reverse⟩

/-- The Go test `folderName[l-1] == '/'` on the last byte (equivalently
the last character: '/' is ASCII and cannot end a multi-byte rune). -/
def lastCharSlash (s : String) : Bool :=
  match s.data.getLast? with
  | some c => c == '/'
  | none => false

/-- `awsS3.DeleteFolder`: return immediately on an empty name; append '/'
when missing; list the folder's objects (propagating a listing error);
delete the listed keys last-to-first, then the slash-trimmed folder key
itself, ignoring the deletions' errors.  The second component records the
S3 requests issued, in order. -/
def awsS3.DeleteFolder (listRes : String → String → Except GoError (List String))
    (bucket folderName : String) : Option GoError × List S3Op :=
  if folderName = "" then (none, [])
  else
    let f := if lastCharSlash folderName then folderName else folderName ++ "/"
    match listRes bucket f with
    | Except.error e => (some e, [S3Op.listObjectsOp bucket f])
    | Except.ok keys =>
      (none, S3Op.listObjectsOp bucket f ::
        (keys.reverse.map (fun k => S3Op.deleteOp bucket k) ++
          [S3Op.deleteOp bucket (trimRightSlashes f)]))

/-- C10: `DeleteFolder` with an empty folder name returns a nil error
immediately and issues no S3 request; for a non-empty folder name not
ending in '/', the '/' is appended before the folder listing, which is
the first request issued. -/
theorem s3_delete_folder_contract
    (listRes : String → String → Except GoError (List String))
    (bucket folderName : String)
    (hne : folderName ≠ "")
    (hslash : lastCharSlash folderName = false) :
    awsS3.DeleteFolder listRes bucket "" = (none, []) ∧
    (awsS3.DeleteFolder listRes bucket folderName).2.head? =
      some (S3Op.listObjectsOp bucket (folderName ++ "/")) := by
  constructor
  · rfl
  · simp only [awsS3.DeleteFolder, hne, if_false, hslash]
    cases hl : listRes bucket (folderName ++ "/") with
    | error e => simp [hl]
    | ok keys => simp [hl]

/-- Witness for C10 at a concrete bucket and folder name. -/
theorem s3_delete_folder_contract_witness :
    awsS3.DeleteFolder (fun _ _ => Except.ok []) "bucket-1" "" = (none, []) :=
  (s3_delete_folder_contract (fun _ _ => Except.ok []) "bucket-1" "folder"
    (by decide) (by decide)).1

theorem listGetqMem {α : Type} : ∀ (l : List α) (i : Nat) (a : α),
    l[i]? = some a → a ∈ l := by
  intro l
  induction l with
  | nil =>
    intro i a h
    simp at h
  | cons x xs ih =>
    intro i a h
    cases i with
    | zero =>
      rw [List.getElem?_cons_zero, Option.some.injEq] at h
      rw [← h]
      exact List.mem_cons_self _ _
    | succ n =>
      rw [List.getElem?_cons_succ] at h
      exact List.mem_cons_of_mem _ (ih n a h)

theorem memSetCases {α : Type} : ∀ (l : List α) (i : Nat) (b a : α),
    a ∈ l.set i b → a ∈ l ∨ a = b := by
  intro l
  induction l with
  | nil =>
    intro i b a h
    simp [List.set] at h
  | cons x xs ih =>
    intro i b a h
    cases i with
    | zero =>
      rw [List.set_cons_zero] at h
      rcases List.mem_cons.mp h with h1 | h1
      · right
        exact h1
      · left
        exact List.mem_cons_of_mem _ h1
    | succ n =>
      rw [List.set_cons_succ] at h
      rcases List.mem_cons.mp h with h1 | h1
      · left
        rw [h1]
        exact List.mem_cons_self _ _
      · rcases ih n b a h1 with h2 | h2
        · left
          exact List.mem_cons_of_mem _ h2
        · right
          exact h2

/-- Global state of N concurrent `Cache.Get` callers for one fixed key:
the shared store, each caller's "missed in the read section" flag, each
caller's returned pair (`none` while still running), and the number of
provider invocations so far. -/
structure ConcSys where
  store : CacheStore
  missedFlags : List Bool
  results : List (Option (Option UserType × Option GoError))
  calls : Nat
  deriving DecidableEq

/-- One atomic section of caller `i` under the RWMutex discipline of
`Cache.Get`: a finished caller does nothing; a caller that has not read
yet runs the shared-lock read section (hit: return the entry; miss: fall
through to the write path); a caller that missed runs the exclusive-lock
section, which invokes the provider and memoizes exactly as the miss path
of `Cache.Get` does — the code does not re-check the cache after taking
the write lock. -/
def concStep (provider : String → String → Option UserType × Option GoError)
    (d u : String) (sys : ConcSys) (i : Nat) : ConcSys :=
  match sys.results[i]? with
  | none => sys
  | some (some _) => sys
  | some none =>
    match sys.missedFlags.getD i false with
    | false =>
      match lookup2 sys.store d u with
      | some cd =>
        ⟨sys.store, sys.missedFlags,
          sys.results.set i (some (cd.user, cd.err)), sys.calls⟩
      | none =>
        ⟨sys.store, sys.missedFlags.set i true, sys.results, sys.calls⟩
    | true =>
      match provider d u with
      | (pu, some e) =>
        if e.msg = ErrCognitoUserNotFound.msg then
          ⟨Cache.add sys.store d u pu (some e), sys.missedFlags,
            sys.results.set i (some (pu, some e)), sys.calls + 1⟩
        else
          ⟨sys.store, sys.missedFlags,
            sys.results.set i (some (pu, some e)), sys.calls + 1⟩
      | (pu, none) =>
        ⟨Cache.add sys.store d u pu none, sys.missedFlags,
          sys.results.set i (some (pu, none)), sys.calls + 1⟩

/-- Run an interleaving, given as the list of caller indices in the order
their atomic sections acquire the lock. -/
def runSchedule (provider : String → String → Option UserType × Option GoError)
    (d u : String) (schedule : List Nat) (init : ConcSys) : ConcSys :=
  schedule.foldl (fun sys i => concStep provider d u sys i) init

/-- `n` fresh callers over a given store. -/
def concInit (s : CacheStore) (n : Nat) : ConcSys :=
  ⟨s, List.replicate n false, List.replicate n none, 0⟩

/-- Inductive invariant of the concurrent runs for one key whose provider
outcome `(pu, pe)` is memoizable: the store holds nothing or exactly the
memoized outcome for the key; every finished caller returned the provider
outcome; the entry implies a provider call; a finished caller implies the
entry is present. -/
def ConcInv (d u : String) (pu : Option UserType) (pe : Option GoError)
    (sys : ConcSys) : Prop :=
  (lookup2 sys.store d u = none ∨ lookup2 sys.store d u = some ⟨pu, pe⟩) ∧
  (∀ r ∈ sys.results, ∀ x, r = some x → x = (pu, pe)) ∧
  (lookup2 sys.store d u = some ⟨pu, pe⟩ → 1 ≤ sys.calls) ∧
  ((∃ r ∈ sys.results, r ≠ none) → lookup2 sys.store d u = some ⟨pu, pe⟩)



theorem concStep_oob (provider : String → String → Option UserType × Option GoError)
    (d u : String) (sys : ConcSys) (i : Nat) (h : sys.results[i]? = none) :
    concStep provider d u sys i = sys := by
  simp only [concStep, h]

theorem concStep_finished (provider : String → String → Option UserType × Option GoError)
    (d u : String) (sys : ConcSys) (i : Nat) (x : Option UserType × Option GoError)
    (h : sys.results[i]? = some (some x)) :
    concStep provider d u sys i = sys := by
  simp only [concStep, h]

theorem concStep_read_hit (provider : String → String → Option UserType × Option GoError)
    (d u : String) (sys : ConcSys) (i : Nat) (cd : cacheData)
    (h : sys.results[i]? = some none)
    (hf : sys.missedFlags.getD i false = false)
    (hlu : lookup2 sys.store d u = some cd) :
    concStep provider d u sys i =
      ⟨sys.store, sys.missedFlags,
        sys.results.set i (some (cd.user, cd.err)), sys.calls⟩ := by
  simp only [concStep, h, hf, hlu]

theorem concStep_read_miss (provider : String → String → Option UserType × Option GoError)
    (d u : String) (sys : ConcSys) (i : Nat)
    (h : sys.results[i]? = some none)
    (hf : sys.missedFlags.getD i false = false)
    (hlu : lookup2 sys.store d u = none) :
    concStep provider d u sys i =
      ⟨sys.store, sys.missedFlags.set i true, sys.results, sys.calls⟩ := by
  simp only [concStep, h, hf, hlu]

theorem concStep_write_notfound (provider : String → String → Option UserType × Option GoError)
    (d u : String) (sys : ConcSys) (i : Nat)
    (pu : Option UserType) (e : GoError)
    (h : sys.results[i]? = some none)
    (hf : sys.missedFlags.getD i false = true)
    (hp : provider d u = (pu, some e))
    (hm : e.msg = ErrCognitoUserNotFound.msg) :
    concStep provider d u sys i =
      ⟨Cache.add sys.store d u pu (some e), sys.missedFlags,
        sys.results.set i (some (pu, some e)), sys.calls + 1⟩ := by
  simp only [concStep, h, hf, hp]
  rw [if_pos hm]

theorem concStep_write_ok (provider : String → String → Option UserType × Option GoError)
    (d u : String) (sys : ConcSys) (i : Nat) (pu : Option UserType)
    (h : sys.results[i]? = some none)
    (hf : sys.missedFlags.getD i false = true)
    (hp : provider d u = (pu, none)) :
    concStep provider d u sys i =
      ⟨Cache.add sys.store d u pu none, sys.missedFlags,
        sys.results.set i (some (pu, none)), sys.calls + 1⟩ := by
  simp only [concStep, h, hf, hp]

theorem concStep_inv (provider : String → String → Option UserType × Option GoError)
    (d u : String) (pu : Option UserType) (pe : Option GoError)
    (sys : ConcSys) (i : Nat)
    (hprov : provider d u = (pu, pe))
    (hkind : pe = none ∨ ∃ e, pe = some e ∧ e.msg = ErrCognitoUserNotFound.msg)
    (hinv : ConcInv d u pu pe sys) :
    ConcInv d u pu pe (concStep provider d u sys i) := by
  obtain ⟨ha, hb, hc, hd⟩ := hinv
  cases hres : sys.results[i]? with
  | none =>
    rw [concStep_oob provider d u sys i hres]
    exact ⟨ha, hb, hc, hd⟩
  | some r =>
    cases r with
    | some x =>
      rw [concStep_finished provider d u sys i x hres]
      exact ⟨ha, hb, hc, hd⟩
    | none =>
      cases hflag : sys.missedFlags.getD i false with
      | false =>
        cases hlu : lookup2 sys.store d u with
        | some cd =>
          rw [concStep_read_hit provider d u sys i cd hres hflag hlu]
          have hcd : cd = ⟨pu, pe⟩ := by
            rcases ha with h | h
            · rw [hlu] at h
              exact Option.noConfusion h
            · rw [hlu] at h
              exact Option.some.inj h
          subst hcd
          refine ⟨ha, ?_, hc, ?_⟩
          · intro r hr x hx
            rcases memSetCases _ _ _ _ hr with hr2 | hr2
            · exact hb r hr2 x hx
            · rw [hr2] at hx
              exact (Option.some.inj hx).symm
          · intro _
            exact hlu
        | none =>
          rw [concStep_read_miss provider d u sys i hres hflag hlu]
          exact ⟨ha, hb, hc, hd⟩
      | true =>
        rcases hkind with hk | ⟨e, hk, hm⟩
        · subst hk
          rw [concStep_write_ok provider d u sys i pu hres hflag hprov]
          refine ⟨Or.inr (lookup2_add_same sys.store d u pu none), ?_, ?_, ?_⟩
          · intro r hr x hx
            rcases memSetCases _ _ _ _ hr with hr2 | hr2
            · exact hb r hr2 x hx
            · rw [hr2] at hx
              exact (Option.some.inj hx).symm
          · intro _
            exact Nat.succ_le_succ (Nat.zero_le _)
          · intro _
            exact lookup2_add_same sys.store d u pu none
        · subst hk
          rw [concStep_write_notfound provider d u sys i pu e hres hflag hprov hm]
          refine ⟨Or.inr (lookup2_add_same sys.store d u pu (some e)), ?_, ?_, ?_⟩
          · intro r hr x hx
            rcases memSetCases _ _ _ _ hr with hr2 | hr2
            · exact hb r hr2 x hx
            · rw [hr2] at hx
              exact (Option.some.inj hx).symm
          · intro _
            exact Nat.succ_le_succ (Nat.zero_le _)
          · intro _
            exact lookup2_add_same sys.store d u pu (some e)

theorem concStep_results_length
    (provider : String → String → Option UserType × Option GoError)
    (d u : String) (sys : ConcSys) (i : Nat) :
    (concStep provider d u sys i).results.length = sys.results.length := by
  cases hres : sys.results[i]? with
  | none =>
    rw [concStep_oob provider d u sys i hres]
  | some r =>
    cases r with
    | some x =>
      rw [concStep_finished provider d u sys i x hres]
    | none =>
      cases hflag : sys.missedFlags.getD i false with
      | false =>
        cases hlu : lookup2 sys.store d u with
        | some cd =>
          rw [concStep_read_hit provider d u sys i cd hres hflag hlu]
          exact List.length_set sys.results i _
        | none =>
          rw [concStep_read_miss provider d u sys i hres hflag hlu]
      | true =>
        rcases hp : provider d u with ⟨pu, pe⟩
        cases pe with
        | none =>
          rw [concStep_write_ok provider d u sys i pu hres hflag hp]
          exact List.length_set sys.results i _
        | some e =>
          by_cases hm : e.msg = ErrCognitoUserNotFound.msg
          · rw [concStep_write_notfound provider d u sys i pu e hres hflag hp hm]
            exact List.length_set sys.results i _
          · simp only [concStep, hres, hflag, hp]
            rw [if_neg hm]
            exact List.length_set sys.results i _

theorem runSchedule_inv (provider : String → String → Option UserType × Option GoError)
    (d u : String) (pu : Option UserType) (pe : Option GoError)
    (schedule : List Nat) :
    ∀ sys : ConcSys,
      provider d u = (pu, pe) →
      (pe = none ∨ ∃ e, pe = some e ∧ e.msg = ErrCognitoUserNotFound.msg) →
      ConcInv d u pu pe sys →
      ConcInv d u pu pe (runSchedule provider d u schedule sys) := by
  induction schedule with
  | nil =>
    intro sys _ _ h
    exact h
  | cons i rest ih =>
    intro sys hp hk h
    exact ih (concStep provider d u sys i) hp hk
      (concStep_inv provider d u pu pe sys i hp hk h)

theorem runSchedule_results_length
    (provider : String → String → Option UserType × Option GoError)
    (d u : String) (schedule : List Nat) :
    ∀ sys : ConcSys,
      (runSchedule provider d u schedule sys).results.length = sys.results.length := by
  induction schedule with
  | nil =>
    intro sys
    rfl
  | cons i rest ih =>
    intro sys
    rw [show runSchedule provider d u (i :: rest) sys
        = runSchedule provider d u rest (concStep provider d u sys i) from rfl]
    rw [ih (concStep provider d u sys i), concStep_results_length]

theorem concInit_inv (d u : String) (pu : Option UserType) (pe : Option GoError)
    (s : CacheStore) (n : Nat) (hmiss : lookup2 s d u = none) :
    ConcInv d u pu pe (concInit s n) := by
  refine ⟨Or.inl hmiss, ?_, ?_, ?_⟩
  · intro r hr x hx
    have h0 : r = none := List.eq_of_mem_replicate hr
    rw [h0] at hx
    exact Option.noConfusion hx
  · intro h
    have h2 : lookup2 s d u = some (⟨pu, pe⟩ : cacheData) := h
    rw [hmiss] at h2
    exact Option.noConfusion h2
  · intro h
    obtain ⟨r, hr, hne⟩ := h
    exact absurd (List.eq_of_mem_replicate hr) hne

theorem concStep_done (provider : String → String → Option UserType × Option GoError)
    (d u : String) (sys : ConcSys)
    (hdone : ∀ r ∈ sys.results, r ≠ none) (j : Nat) :
    concStep provider d u sys j = sys := by
  cases hres : sys.results[j]? with
  | none =>
    exact concStep_oob provider d u sys j hres
  | some r =>
    cases r with
    | some x =>
      exact concStep_finished provider d u sys j x hres
    | none =>
      exact absurd rfl (hdone none (listGetqMem _ _ _ hres))

/-- C8: Concurrent correctness: for any interleaving of `n ≥ 1` callers
running `Cache.Get` on the same initially-uncached key, against a
provider whose outcome for that key is memoizable (a record or the
not-found condition), once every caller has finished: all callers
returned exactly the provider outcome (all the record, or all the
not-found error), the provider was invoked at least once, the cache holds
the single memoized entry for the key, and the state is stable (every
further step is a no-op). -/
theorem cache_concurrent_correctness
    (provider : String → String → Option UserType × Option GoError)
    (d u : String) (pu : Option UserType) (pe : Option GoError)
    (s : CacheStore) (n : Nat) (schedule : List Nat)
    (hprov : provider d u = (pu, pe))
    (hkind : pe = none ∨ ∃ e, pe = some e ∧ e.msg = ErrCognitoUserNotFound.msg)
    (hmiss : lookup2 s d u = none)
    (hn : 0 < n)
    (hdone : ∀ r ∈ (runSchedule provider d u schedule (concInit s n)).results,
      r ≠ none) :
    (∀ r ∈ (runSchedule provider d u schedule (concInit s n)).results,
      r = some (pu, pe)) ∧
    1 ≤ (runSchedule provider d u schedule (concInit s n)).calls ∧
    lookup2 (runSchedule provider d u schedule (concInit s n)).store d u =
      some ⟨pu, pe⟩ ∧
    ∀ j : Nat,
      concStep provider d u (runSchedule provider d u schedule (concInit s n)) j =
        runSchedule provider d u schedule (concInit s n) := by
  obtain ⟨ha, hb, hc, hd⟩ := runSchedule_inv provider d u pu pe schedule
    (concInit s n) hprov hkind (concInit_inv d u pu pe s n hmiss)
  have hlen : (runSchedule provider d u schedule (concInit s n)).results.length = n := by
    rw [runSchedule_results_length]
    exact List.length_replicate n none
  have hex : ∃ r ∈ (runSchedule provider d u schedule (concInit s n)).results,
      r ≠ none := by
    have hpos : 0 < (runSchedule provider d u schedule (concInit s n)).results.length := by
      rw [hlen]
      exact hn
    obtain ⟨r, hr⟩ := List.exists_mem_of_length_pos hpos
    exact ⟨r, hr, hdone r hr⟩
  have hstore := hd hex
  have hcalls := hc hstore
  refine ⟨?_, hcalls, hstore, ?_⟩
  · intro r hr
    cases r with
    | none =>
      exact absurd rfl (hdone none hr)
    | some x =>
      rw [hb (some x) hr x rfl]
  · intro j
    exact concStep_done provider d u _ hdone j

/-- Witness for C8: two callers, the schedule "caller 0 reads (miss),
caller 0 writes, caller 1 reads (hit)". -/
theorem cache_concurrent_correctness_witness :
    1 ≤ (runSchedule (fun _ _ => (some ⟨"sub-1", "alice"⟩, none)) "pool-1" "sub-1"
      [0, 0, 1] (concInit [] 2)).calls :=
  (cache_concurrent_correctness (fun _ _ => (some ⟨"sub-1", "alice"⟩, none))
    "pool-1" "sub-1" (some ⟨"sub-1", "alice"⟩) none [] 2 [0, 0, 1]
    rfl (Or.inl rfl) rfl (by decide) (by decide)).2.1
